import Mathlib

/-!
Shallow embedding of `buildkite/bazel-bench/generate_report.py`.

Python floats are modelled as exact rationals (`ℚ`); Python `dict`s
(which preserve insertion order) are modelled as association lists with
unique keys, built through `updateKey`; exceptions (`ZeroDivisionError`,
`KeyError`, fetch failures) are modelled with `Except String`.
-/

namespace BazelBench

/-- One row of the aggregate-profile CSV: columns `bazel_source`, `name`
(phase name) and `dur` (duration, a numeric string parsed to a float,
modelled as `ℚ`). -/
structure AggrEntry where
  bazel_source : String
  name : String
  dur : ℚ
deriving DecidableEq

/-- One row of the performance CSV: columns `bazel_commit`, `wall` and
`memory` (numeric strings parsed to floats, modelled as `ℚ`). -/
structure PerfEntry where
  bazel_commit : String
  wall : ℚ
  memory : ℚ
deriving DecidableEq

/-- The per-commit record built by `_prepare_data_for_graph`, holding the
`wall_readings` and `memory_readings` lists. -/
structure Readings where
  wall_readings : List ℚ
  memory_readings : List ℚ
deriving DecidableEq

/-- A cell of one of the heterogeneous Python lists used as chart tables:
either a string (commit hash, header label) or a number. -/
inductive Cell where
  | str : String → Cell
  | num : ℚ → Cell
deriving DecidableEq

/-- The fixed ordered vocabulary of 8 build phases (`EVENTS_ORDER`). -/
def EVENTS_ORDER : List String :=
  ["Launch Blaze",
   "Initialize command",
   "Load packages",
   "Analyze dependencies",
   "Analyze licenses",
   "Prepare for build",
   "Build artifacts",
   "Complete build"]

/-- Lookup in an association list, the model of Python `d[k]` /
`k in d` on a dict whose keys are unique. -/
def lookupKey {β : Type} (k : String) : List (String × β) → Option β
  | [] => none
  | p :: rest => if p.1 = k then some p.2 else lookupKey k rest

/-- The model of the Python pattern
`if k not in d: d[k] = dflt` followed by a mutation of `d[k]`:
if `k` is present its value is updated in place (insertion order kept),
otherwise `(k, f d)` is appended at the end. -/
def updateKey {β : Type} (m : List (String × β)) (k : String) (d : β) (f : β → β) :
    List (String × β) :=
  match lookupKey k m with
  | some _ => m.map (fun p => if p.1 = k then (p.1, f p.2) else p)
  | none => m ++ [(k, f d)]

/-- Folding a list of records into an insertion-ordered dict, the model of
the grouping `for` loops of `_get_proportion_breakdown` and
`_prepare_data_for_graph`. -/
def dictFold {ε β : Type} (key : ε → String) (d : β) (f : ε → β → β) (l : List ε) :
    List (String × β) :=
  l.foldl (fun m e => updateKey m (key e) d (f e)) []

/-- First grouping loop of `_get_proportion_breakdown`: group the
aggregate-profile rows by `bazel_source`, appending `(name, dur)` pairs. -/
def group_phases (aggr_json_profile : List AggrEntry) : List (String × List (String × ℚ)) :=
  dictFold (fun e => e.bazel_source) [] (fun e phases => phases ++ [(e.name, e.dur)])
    aggr_json_profile

/-- Second half of `_get_proportion_breakdown` for one commit group:
`total_time` is the sum of the durations, and each phase name is mapped to
`dur / total_time`.  A zero `total_time` over a non-empty group raises
`ZeroDivisionError` in Python (the division is reached), modelled as
`Except.error`; an empty group would produce an empty dict. -/
def proportionOfGroup (phases : List (String × ℚ)) : Except String (List (String × ℚ)) :=
  let total_time := (phases.map (fun p => p.2)).sum
  if phases = [] then .ok []
  else if total_time = 0 then .error "ZeroDivisionError: float division by zero"
  else .ok (dictFold (fun p => p.1) 0 (fun p _ => p.2 / total_time) phases)

/-- The per-group loop of `_get_proportion_breakdown`, iterating the groups
in key-insertion order and stopping at the first raised exception. -/
def breakdownGroups :
    List (String × List (String × ℚ)) → Except String (List (String × List (String × ℚ)))
  | [] => .ok []
  | g :: gs =>
    match proportionOfGroup g.2 with
    | .error e => .error e
    | .ok bd =>
      match breakdownGroups gs with
      | .error e => .error e
      | .ok rest => .ok ((g.1, bd) :: rest)

/-- `_get_proportion_breakdown`: from aggregate-profile rows to the
per-commit phase-proportion map. -/
def get_proportion_breakdown (aggr_json_profile : List AggrEntry) :
    Except String (List (String × List (String × ℚ))) :=
  breakdownGroups (group_phases aggr_json_profile)

/-- `_fit_data_to_phase_proportion`: expand one reading against the fixed
phase vocabulary, `0` for an absent phase and `reading * proportion` for a
present one. -/
def fit_data_to_phase_proportion (reading : ℚ) (proportion_breakdown : List (String × ℚ)) :
    List ℚ :=
  EVENTS_ORDER.map (fun phase =>
    match lookupKey phase proportion_breakdown with
    | none => 0
    | some p => reading * p)

/-- `statistics.median`: sort the readings, take the middle element for an
odd count and the mean of the two middle elements for an even count.
(Python raises on an empty list; that branch is unreachable from
`_prepare_data_for_graph` and is given the junk value `0` here.) -/
def median (xs : List ℚ) : ℚ :=
  let s := List.insertionSort (· ≤ ·) xs
  if s.length % 2 = 1 then s.getD (s.length / 2) 0
  else (s.getD (s.length / 2 - 1) 0 + s.getD (s.length / 2) 0) / 2

/-- First loop of `_prepare_data_for_graph`: group the performance rows by
`bazel_commit` into an `OrderedDict` of wall/memory reading lists. -/
def group_readings (performance_data : List PerfEntry) : List (String × Readings) :=
  dictFold (fun e => e.bazel_commit) ⟨[], []⟩
    (fun e r => ⟨r.wall_readings ++ [e.wall], r.memory_readings ++ [e.memory]⟩)
    performance_data

/-- Header row of the wall table. -/
def wall_header : List Cell := Cell.str "Bazel Commit" :: EVENTS_ORDER.map Cell.str

/-- Header row of the memory table. -/
def memory_header : List Cell := [Cell.str "Bazel Commit", Cell.str "Memory (MB)"]

/-- Build one result per element, stopping at the first exception, the model
of a Python loop that appends to a result list and may raise. -/
def mapRows {α β : Type} (f : α → Except String β) : List α → Except String (List β)
  | [] => .ok []
  | x :: xs =>
    match f x with
    | .error e => .error e
    | .ok y =>
      match mapRows f xs with
      | .error e => .error e
      | .ok ys => .ok (y :: ys)

/-- One wall-table data row of `_prepare_data_for_graph`.  NOTE (faithful to
the source): the proportion lookup uses `last_commit`, the leftover value of
the loop variable `bazel_commit` from the first grouping loop, not the row's
own commit `g.1`; a missing key raises `KeyError`. -/
def wallRow (props : List (String × List (String × ℚ))) (last_commit : String)
    (g : String × Readings) : Except String (List Cell) :=
  match lookupKey last_commit props with
  | none => .error "KeyError"
  | some bd =>
    .ok (Cell.str g.1 ::
      (fit_data_to_phase_proportion (median g.2.wall_readings) bd).map Cell.num)

/-- `_prepare_data_for_graph`: produce the wall and memory tables.
`last_commit` is the value the Python loop variable `bazel_commit` has after
the first grouping loop: the `bazel_commit` of the last performance row
(arbitrary, and unused, when there are no rows). -/
def prepare_data_for_graph (performance_data : List PerfEntry)
    (aggr_json_profile : List AggrEntry) :
    Except String (List (List Cell) × List (List Cell)) :=
  match get_proportion_breakdown aggr_json_profile with
  | .error e => .error e
  | .ok props =>
    let readings := group_readings performance_data
    let last_commit := ((performance_data.getLast?).map (fun e => e.bazel_commit)).getD ""
    match mapRows (wallRow props last_commit) readings with
    | .error e => .error e
    | .ok rows =>
      .ok (wall_header :: rows,
           memory_header ::
             readings.map (fun g => [Cell.str g.1, Cell.num (median g.2.memory_readings)]))

/-- `_row_component`. -/
def row_component (content : String) : String :=
  "\n<div class=\"row\">" ++ content ++ "</div>\n"

/-- `_col_component`. -/
def col_component (col_class content : String) : String :=
  "\n<div class=\"" ++ col_class ++ "\">" ++ content ++ "</div>\n"

/-- Python `str` of a table cell; `str` of a Python string uses single
quotes, and `str` of a number is modelled by `ℚ` printing. -/
def pyStrCell : Cell → String
  | Cell.str s => "\x27" ++ s ++ "\x27"
  | Cell.num q => toString q

/-- Python `str` of a table row. -/
def pyStrRow (row : List Cell) : String :=
  "[" ++ String.intercalate ", " (row.map pyStrCell) ++ "]"

/-- Python `str` of a whole table, as interpolated into `{data}` by
`_single_graph`. -/
def pyStrTable (table : List (List Cell)) : String :=
  "[" ++ String.intercalate ", " (table.map pyStrRow) ++ "]"

/-- `_single_graph`: the `<script>`/`<div>` component of a single chart. -/
def single_graph (metric metric_label data platform : String) : String :=
  let title := "[" ++ platform ++ "] Bar Chart of " ++ metric_label ++ " vs Bazel commits"
  let vAxis := "Bazel Commits (chronological order)"
  let hAxis := metric_label
  let chart_id := platform ++ "-" ++ metric
  "\n<script type=\"text/javascript\">\n    google.charts.setOnLoadCallback(drawChart);\n    function drawChart() \x7b\n      var data = google.visualization.arrayToDataTable("
    ++ data
    ++ ")\n\n      var options = \x7b\n        title: \""
    ++ title
    ++ "\",\n        hAxis: \x7b\n          title: \""
    ++ hAxis
    ++ "\",\n          minValue: 0,\n        \x7d,\n        vAxis: \x7b\n          title: \""
    ++ vAxis
    ++ "\"\n        \x7d,\n        bars: \"horizontal\",\n        axes: \x7b\n          y: \x7b\n            0: \x7b side: \"right\"\x7d\n          \x7d\n        \x7d,\n        isStacked: true\n      \x7d;\n      var chart = new google.visualization.BarChart(document.getElementById(\""
    ++ chart_id
    ++ "\"));\n      chart.draw(data, options);\n  \x7d\n  </script>\n<div id=\""
    ++ chart_id
    ++ "\" style=\"height: 800px\"></div>\n"

/-- Literal segment of the `_full_report` template before `{project}`. -/
def fr1 : String :=
  "\n<html>\n  <head>\n    <script type=\"text/javascript\" src=\"https://www.gstatic.com/charts/loader.js\"></script>\n    <script type=\"text/javascript\">\n      google.charts.load(\"current\", \x7b packages:[\"corechart\"] \x7d);\n    </script>\n    <link rel=\"stylesheet\" href=\"https://stackpath.bootstrapcdn.com/bootstrap/4.3.1/css/bootstrap.min.css\" integrity=\"sha384-ggOyR0iXCbMQv3Xipma34MD+dH/1fQ784/j6cY/iJTQUOhcWr7x9JvoRxT2MZw1T\" crossorigin=\"anonymous\">\n  </head>\n  <body style=\"font-family: Roboto;\">\n    <div class=\"container-fluid\">\n      <div class=\"row\">\n        <div class=\"col-sm-12\">\n          <h1>["

/-- Literal segment of the `_full_report` template between `{project}` and
`{date}`. -/
def fr2 : String := "] Report for "

/-- Literal segment of the `_full_report` template between `{date}` and
`{graphs}`. -/
def fr3 : String := "</h1>\n        </div>\n      </div>\n      "

/-- Literal segment of the `_full_report` template after `{graphs}`. -/
def fr4 : String := "\n    </div>\n  </body>\n</html>\n"

/-- `_full_report`: the complete HTML document. -/
def full_report (project date graphs : String) : String :=
  fr1 ++ project ++ fr2 ++ date ++ fr3 ++ graphs ++ fr4

/-- One `platforms` entry of the metadata document together with the
outcomes of the two CSV fetches for it (a fetch may fail). -/
structure PlatformFetch where
  platform : String
  perf_data : Except String (List PerfEntry)
  aggr_json_profiles : Except String (List AggrEntry)

/-- The per-platform loop of `_generate_report_for_date`: two row
components (platform heading, charts) are accumulated per platform; any
fetch or data error aborts the whole loop. -/
def graph_components : List PlatformFetch → Except String (List String)
  | [] => .ok []
  | pm :: rest =>
    match pm.perf_data with
    | .error e => .error e
    | .ok performance_data =>
      match pm.aggr_json_profiles with
      | .error e => .error e
      | .ok aggr_json_profile =>
        match prepare_data_for_graph performance_data aggr_json_profile with
        | .error e => .error e
        | .ok (wall_data, memory_data) =>
          match graph_components rest with
          | .error e => .error e
          | .ok comps =>
            .ok (row_component
                   (col_component "col-sm-5" ("<h2>" ++ pm.platform ++ "</h2>"))
                 :: row_component (String.intercalate "\n"
                      [col_component "col-sm-10"
                         (single_graph "wall" "Wall Time (s)" (pyStrTable wall_data)
                           pm.platform),
                       col_component "col-sm-10"
                         (single_graph "memory" "Memory (MB)" (pyStrTable memory_data)
                           pm.platform)])
                 :: comps)

/-- The report file path (model of
`REPORTS_DIRECTORY/report_{project}_{date}.html`). -/
def report_path (project date : String) : String :=
  "report_" ++ project ++ "_" ++ date ++ ".html"

/-- `_generate_report_for_date`, observed through its side effects: the
first component is the list of file writes performed (path, content), the
second the raised error, if any.  The write happens only after the full
document string is assembled; an error raised while fetching or reshaping
leaves the write list empty. -/
def generate_report_for_date (project date : String)
    (metadata_platforms : Except String (List PlatformFetch)) :
    List (String × String) × Option String :=
  match metadata_platforms with
  | .error e => ([], some e)
  | .ok platforms =>
    match graph_components platforms with
    | .error e => ([], some e)
    | .ok comps =>
      ([(report_path project date,
         full_report project date (String.intercalate "\n" comps))], none)

/-! ### Specification-side definitions

These follow the spec's words, to be compared with the embedded code. -/

/-- Spec-side: the run identifiers of a sequence, in the order each one
first appears (`seen` holds the identifiers already emitted). -/
def newKeys (seen : List String) : List String → List String
  | [] => []
  | x :: xs => if x ∈ seen then newKeys seen xs else x :: newKeys (x :: seen) xs

/-- Spec-side: the standard statistical median rule on an already sorted
list — middle value for an odd count, mean of the two middle values for an
even count. -/
def sorted_median_rule (s : List ℚ) : ℚ :=
  if s.length % 2 = 1 then s.getD (s.length / 2) 0
  else (s.getD (s.length / 2 - 1) 0 + s.getD (s.length / 2) 0) / 2

/-- Spec-side: the `(name, dur)` phase samples of one run identifier, in
input order. -/
def phasesOf (aggr_json_profile : List AggrEntry) (c : String) : List (String × ℚ) :=
  (aggr_json_profile.filter (fun e => e.bazel_source = c)).map (fun e => (e.name, e.dur))

/-- Spec-side: the total phase duration of one run identifier. -/
def totalOf (aggr_json_profile : List AggrEntry) (c : String) : ℚ :=
  ((phasesOf aggr_json_profile c).map (fun p => p.2)).sum

/-- Spec-side: the sum of the numeric cells of a table row. -/
def rowNumSum (row : List Cell) : ℚ :=
  (row.map (fun c => match c with | Cell.str _ => 0 | Cell.num q => q)).sum

/-- Boolean prefix test on character lists. -/
def isPrefixChars : List Char → List Char → Bool
  | [], _ => true
  | _ :: _, [] => false
  | a :: as, b :: bs => if a = b then isPrefixChars as bs else false

/-- Boolean substring test on character lists. -/
def containsSub : List Char → List Char → Bool
  | pat, [] => pat.isEmpty
  | pat, c :: rest => isPrefixChars pat (c :: rest) || containsSub pat rest

/-- Markers that occur in every chart widget emitted by `single_graph` and
identify a chart `<div>` or chart-drawing script. -/
def chart_markers : List String :=
  ["drawChart", "arrayToDataTable", "BarChart", "<div id="]

/-! ### Association-list dictionary lemmas -/

theorem lookupKey_cons {β : Type} (p : String × β) (l : List (String × β)) (k : String) :
    lookupKey k (p :: l) = if p.1 = k then some p.2 else lookupKey k l := rfl

theorem lookupKey_append_of_none {β : Type} {k : String} {a : List (String × β)}
    (b : List (String × β)) (h : lookupKey k a = none) :
    lookupKey k (a ++ b) = lookupKey k b := by
  induction a with
  | nil => rfl
  | cons p rest ih =>
    rw [List.cons_append, lookupKey_cons]
    rw [lookupKey_cons] at h
    by_cases hp : p.1 = k
    · simp [hp] at h
    · rw [if_neg hp] at h ⊢
      exact ih h

theorem lookupKey_append_of_some {β : Type} {k : String} {a : List (String × β)} {v : β}
    (b : List (String × β)) (h : lookupKey k a = some v) :
    lookupKey k (a ++ b) = some v := by
  induction a with
  | nil => simp [lookupKey] at h
  | cons p rest ih =>
    rw [List.cons_append, lookupKey_cons]
    rw [lookupKey_cons] at h
    by_cases hp : p.1 = k
    · rwa [if_pos hp] at h ⊢
    · rw [if_neg hp] at h ⊢
      exact ih h

theorem lookupKey_map_update {β : Type} (m : List (String × β)) (k c : String)
    (f : β → β) :
    lookupKey c (m.map (fun p => if p.1 = k then (p.1, f p.2) else p)) =
      if c = k then (lookupKey k m).map f else lookupKey c m := by
  induction m with
  | nil => by_cases h : c = k <;> simp [lookupKey, h]
  | cons p rest ih =>
    by_cases hpk : p.1 = k
    · by_cases hck : c = k
      · simp [lookupKey_cons, hpk, hck, List.map_cons, ih]
      · have hpc : ¬p.1 = c := fun h => hck (by rw [← h, hpk])
        have hkc : ¬k = c := fun h => hpc (by rw [hpk, h])
        simp [lookupKey_cons, hpk, hpc, ih, hck, hkc]
    · by_cases hpc : p.1 = c
      · have hck : ¬c = k := fun h => hpk (by rw [hpc, h])
        simp [lookupKey_cons, hpk, hpc, hck]
      · simp [lookupKey_cons, hpk, hpc, ih]

theorem updateKey_lookupKey_self {β : Type} (m : List (String × β)) (k : String)
    (d : β) (f : β → β) :
    lookupKey k (updateKey m k d f) = some (f ((lookupKey k m).getD d)) := by
  unfold updateKey
  cases h : lookupKey k m with
  | some b => simp [lookupKey_map_update, h]
  | none =>
    rw [lookupKey_append_of_none _ h, lookupKey_cons, if_pos rfl]
    rfl

theorem updateKey_lookupKey_ne {β : Type} (m : List (String × β)) {k c : String}
    (d : β) (f : β → β) (hck : c ≠ k) :
    lookupKey c (updateKey m k d f) = lookupKey c m := by
  unfold updateKey
  cases h : lookupKey k m with
  | some b => simp [lookupKey_map_update, hck]
  | none =>
    cases hc : lookupKey c m with
    | some v => exact lookupKey_append_of_some _ hc
    | none =>
      rw [lookupKey_append_of_none _ hc, lookupKey_cons, if_neg (Ne.symm hck)]
      rfl

theorem updateKey_keys {β : Type} (m : List (String × β)) (k : String) (d : β)
    (f : β → β) :
    (updateKey m k d f).map (fun p => p.1) =
      if (lookupKey k m).isSome then m.map (fun p => p.1)
      else m.map (fun p => p.1) ++ [k] := by
  unfold updateKey
  cases h : lookupKey k m with
  | some b =>
    simp only [h, Option.isSome_some, if_true, List.map_map]
    refine List.map_congr_left ?_
    intro p _
    by_cases hp : p.1 = k <;> simp [hp]
  | none => simp [h]

theorem lookupKey_eq_none_iff {β : Type} (m : List (String × β)) (c : String) :
    lookupKey c m = none ↔ c ∉ m.map (fun p => p.1) := by
  induction m with
  | nil => simp [lookupKey]
  | cons p rest ih =>
    by_cases hp : p.1 = c
    · simp [lookupKey_cons, hp]
    · have hcp : ¬c = p.1 := fun h => hp h.symm
      simp [lookupKey_cons, hp, hcp, ih]

theorem lookupKey_mem {β : Type} {m : List (String × β)} {c : String} {v : β}
    (h : lookupKey c m = some v) : (c, v) ∈ m := by
  induction m with
  | nil => simp [lookupKey] at h
  | cons p rest ih =>
    rw [lookupKey_cons] at h
    by_cases hp : p.1 = c
    · rw [if_pos hp, Option.some.injEq] at h
      exact List.mem_cons.mpr (Or.inl (Prod.ext_iff.mpr ⟨hp.symm, h.symm⟩))
    · rw [if_neg hp] at h
      exact List.mem_cons_of_mem _ (ih h)

theorem foldl_updateKey_lookupKey_some {ε β : Type} (key : ε → String) (d : β)
    (f : ε → β → β) :
    ∀ (l : List ε) (m : List (String × β)) (c : String) (b : β),
      lookupKey c m = some b →
      lookupKey c (l.foldl (fun m e => updateKey m (key e) d (f e)) m) =
        some ((l.filter (fun e => key e = c)).foldl (fun b e => f e b) b) := by
  intro l
  induction l with
  | nil => intro m c b h; simpa using h
  | cons e l ih =>
    intro m c b h
    rw [List.foldl_cons, List.filter_cons]
    by_cases hk : key e = c
    · have hlook : lookupKey c (updateKey m (key e) d (f e)) = some (f e b) := by
        rw [← hk] at h ⊢
        rw [updateKey_lookupKey_self, h]
        rfl
      rw [ih _ _ _ hlook]
      simp [hk]
    · have hlook : lookupKey c (updateKey m (key e) d (f e)) = some b := by
        rw [updateKey_lookupKey_ne _ _ _ (fun hh => hk hh.symm), h]
      rw [ih _ _ _ hlook]
      simp [hk]

theorem foldl_updateKey_lookupKey_none {ε β : Type} (key : ε → String) (d : β)
    (f : ε → β → β) :
    ∀ (l : List ε) (m : List (String × β)) (c : String),
      lookupKey c m = none →
      lookupKey c (l.foldl (fun m e => updateKey m (key e) d (f e)) m) =
        if (l.filter (fun e => key e = c)).isEmpty then none
        else some ((l.filter (fun e => key e = c)).foldl (fun b e => f e b) d) := by
  intro l
  induction l with
  | nil => intro m c h; simpa using h
  | cons e l ih =>
    intro m c h
    rw [List.foldl_cons, List.filter_cons]
    by_cases hk : key e = c
    · have hlook : lookupKey c (updateKey m (key e) d (f e)) = some (f e d) := by
        rw [← hk] at h ⊢
        rw [updateKey_lookupKey_self, h]
        rfl
      rw [foldl_updateKey_lookupKey_some key d f _ _ _ _ hlook]
      simp [hk]
    · have hlook : lookupKey c (updateKey m (key e) d (f e)) = none := by
        rw [updateKey_lookupKey_ne _ _ _ (fun hh => hk hh.symm), h]
      rw [ih _ _ hlook]
      simp [hk]

/-- Lookup in a dict built by a Python grouping loop: the value at `c` is
the fold of `f` over exactly the input records whose key is `c`, present
iff some record has key `c`. -/
theorem dictFold_lookupKey {ε β : Type} (key : ε → String) (d : β) (f : ε → β → β)
    (l : List ε) (c : String) :
    lookupKey c (dictFold key d f l) =
      if (l.filter (fun e => key e = c)).isEmpty then none
      else some ((l.filter (fun e => key e = c)).foldl (fun b e => f e b) d) :=
  foldl_updateKey_lookupKey_none key d f l [] c rfl

theorem newKeys_congr : ∀ (l s₁ s₂ : List String),
    (∀ x, x ∈ s₁ ↔ x ∈ s₂) → newKeys s₁ l = newKeys s₂ l := by
  intro l
  induction l with
  | nil => intro s₁ s₂ _; rfl
  | cons x xs ih =>
    intro s₁ s₂ hs
    unfold newKeys
    by_cases hx : x ∈ s₁
    · rw [if_pos hx, if_pos ((hs x).mp hx)]
      exact ih _ _ hs
    · rw [if_neg hx, if_neg (fun hh => hx ((hs x).mpr hh))]
      refine congrArg _ (ih _ _ ?_)
      intro y
      simp [hs y]

theorem newKeys_mem : ∀ (l seen : List String) (x : String),
    x ∈ newKeys seen l ↔ x ∈ l ∧ x ∉ seen := by
  intro l
  induction l with
  | nil => simp [newKeys]
  | cons y ys ih =>
    intro seen x
    unfold newKeys
    by_cases hy : y ∈ seen
    · rw [if_pos hy, ih]
      constructor
      · rintro ⟨hxl, hxs⟩
        exact ⟨List.mem_cons_of_mem _ hxl, hxs⟩
      · rintro ⟨hxl, hxs⟩
        rcases List.mem_cons.mp hxl with hxy | hxl
        · exact absurd (hxy ▸ hy) hxs
        · exact ⟨hxl, hxs⟩
    · rw [if_neg hy]
      constructor
      · intro hx
        rcases List.mem_cons.mp hx with hxy | hx
        · exact ⟨hxy ▸ List.mem_cons_self _ _, hxy ▸ hy⟩
        · rcases (ih _ _).mp hx with ⟨hxl, hxs⟩
          exact ⟨List.mem_cons_of_mem _ hxl, fun hh => hxs (List.mem_cons_of_mem _ hh)⟩
      · rintro ⟨hxl, hxs⟩
        rcases List.mem_cons.mp hxl with hxy | hxl
        · exact hxy ▸ List.mem_cons_self _ _
        · by_cases hxy : x = y
          · exact hxy ▸ List.mem_cons_self _ _
          · refine List.mem_cons_of_mem _ ((ih _ _).mpr ⟨hxl, ?_⟩)
            intro hh
            rcases List.mem_cons.mp hh with h1 | h1
            · exact hxy h1
            · exact hxs h1

theorem newKeys_nodup : ∀ (l seen : List String), (newKeys seen l).Nodup := by
  intro l
  induction l with
  | nil => intro seen; simp [newKeys]
  | cons y ys ih =>
    intro seen
    unfold newKeys
    by_cases hy : y ∈ seen
    · rw [if_pos hy]; exact ih _
    · rw [if_neg hy]
      refine List.nodup_cons.mpr ⟨?_, ih _⟩
      intro hmem
      exact ((newKeys_mem _ _ _).mp hmem).2 (List.mem_cons_self _ _)

theorem foldl_updateKey_keys {ε β : Type} (key : ε → String) (d : β) (f : ε → β → β) :
    ∀ (l : List ε) (m : List (String × β)),
      (l.foldl (fun m e => updateKey m (key e) d (f e)) m).map (fun p => p.1) =
        m.map (fun p => p.1) ++ newKeys (m.map (fun p => p.1)) (l.map key) := by
  intro l
  induction l with
  | nil => intro m; simp [newKeys]
  | cons e l ih =>
    intro m
    rw [List.foldl_cons, List.map_cons]
    unfold newKeys
    cases h : lookupKey (key e) m with
    | some b =>
      have hkeys : (updateKey m (key e) d (f e)).map (fun p => p.1) =
          m.map (fun p => p.1) := by
        rw [updateKey_keys, h]; rfl
      have hmem : key e ∈ m.map (fun p => p.1) := by
        by_contra hh
        rw [(lookupKey_eq_none_iff m (key e)).mpr hh] at h
        cases h
      rw [ih, hkeys, if_pos hmem]
    | none =>
      have hkeys : (updateKey m (key e) d (f e)).map (fun p => p.1) =
          m.map (fun p => p.1) ++ [key e] := by
        rw [updateKey_keys, h]; rfl
      have hmem : key e ∉ m.map (fun p => p.1) := (lookupKey_eq_none_iff m (key e)).mp h
      rw [ih, hkeys, if_neg hmem, List.append_assoc]
      refine congrArg _ (congrArg _ (newKeys_congr _ _ _ ?_))
      intro x
      simp [or_comm]

/-- The keys of a dict built by a Python grouping loop are the input keys in
first-seen order. -/
theorem dictFold_keys {ε β : Type} (key : ε → String) (d : β) (f : ε → β → β)
    (l : List ε) :
    (dictFold key d f l).map (fun p => p.1) = newKeys [] (l.map key) := by
  have h := foldl_updateKey_keys key d f l []
  simpa [dictFold] using h

theorem foldl_append_singleton_map {ε α : Type} (g : ε → α) :
    ∀ (l : List ε) (acc : List α),
      l.foldl (fun b e => b ++ [g e]) acc = acc ++ l.map g := by
  intro l
  induction l with
  | nil => intro acc; simp
  | cons e l ih => intro acc; simp [ih]

theorem foldl_updateKey_eq_map {ε β : Type} (key : ε → String) (d : β) (f : ε → β → β) :
    ∀ (l : List ε) (acc : List (String × β)),
      (l.map key).Nodup → (∀ e ∈ l, lookupKey (key e) acc = none) →
      l.foldl (fun m e => updateKey m (key e) d (f e)) acc =
        acc ++ l.map (fun e => (key e, f e d)) := by
  intro l
  induction l with
  | nil => intro acc _ _; simp
  | cons e l ih =>
    intro acc hnd hacc
    rw [List.foldl_cons]
    have hstep : updateKey acc (key e) d (f e) = acc ++ [(key e, f e d)] := by
      unfold updateKey
      rw [hacc e (List.mem_cons_self _ _)]
    rw [hstep, ih _ (by simpa using hnd.of_cons) ?_, List.append_assoc]
    · rfl
    · intro e' he'
      have h1 : lookupKey (key e') acc = none := hacc e' (List.mem_cons_of_mem _ he')
      rw [lookupKey_append_of_none _ h1, lookupKey_cons]
      have hne : key e ≠ key e' := by
        intro hh
        have : key e ∈ l.map key := hh ▸ List.mem_map_of_mem key he'
        exact (List.nodup_cons.mp (by simpa using hnd)).1 this
      rw [if_neg hne]
      rfl

theorem breakdownGroups_ok_lookup :
    ∀ (groups props : List (String × List (String × ℚ))),
      breakdownGroups groups = .ok props →
      ∀ (c : String) (phs : List (String × ℚ)), lookupKey c groups = some phs →
        ∃ bd, proportionOfGroup phs = .ok bd ∧ lookupKey c props = some bd := by
  intro groups
  induction groups with
  | nil =>
    intro props _ c phs hl
    simp [lookupKey] at hl
  | cons g gs ih =>
    intro props hok c phs hl
    unfold breakdownGroups at hok
    cases hpr : proportionOfGroup g.2 with
    | error e => rw [hpr] at hok; cases hok
    | ok bd =>
      rw [hpr] at hok
      cases hrest : breakdownGroups gs with
      | error e => rw [hrest] at hok; cases hok
      | ok rest =>
        rw [hrest] at hok
        cases hok
        rw [lookupKey_cons] at hl
        by_cases hg : g.1 = c
        · rw [if_pos hg, Option.some.injEq] at hl
          refine ⟨bd, hl ▸ hpr, ?_⟩
          rw [lookupKey_cons, if_pos hg]
        · rw [if_neg hg] at hl
          obtain ⟨bd', h1, h2⟩ := ih rest hrest c phs hl
          refine ⟨bd', h1, ?_⟩
          rw [lookupKey_cons, if_neg hg]
          exact h2

theorem breakdownGroups_error_of_zero :
    ∀ (groups : List (String × List (String × ℚ))) (g : String × List (String × ℚ)),
      g ∈ groups → g.2 ≠ [] → (g.2.map (fun p => p.2)).sum = 0 →
      ∃ msg, breakdownGroups groups = .error msg := by
  intro groups
  induction groups with
  | nil => intro g hg; cases hg
  | cons h gs ih =>
    intro g hg hne hzero
    rcases List.mem_cons.mp hg with hgh | hgs
    · have : proportionOfGroup h.2 = .error "ZeroDivisionError: float division by zero" := by
        unfold proportionOfGroup
        rw [if_neg (by rw [← hgh]; exact hne), if_pos (by rw [← hgh]; exact hzero)]
      refine ⟨"ZeroDivisionError: float division by zero", ?_⟩
      unfold breakdownGroups
      rw [this]
    · cases hpr : proportionOfGroup h.2 with
      | error e =>
        refine ⟨e, ?_⟩
        unfold breakdownGroups
        rw [hpr]
      | ok bd =>
        obtain ⟨msg, hmsg⟩ := ih g hgs hne hzero
        refine ⟨msg, ?_⟩
        unfold breakdownGroups
        rw [hpr, hmsg]

theorem mapRows_ok_mem {α β : Type} (f : α → Except String β) :
    ∀ (l : List α) (ys : List β), mapRows f l = .ok ys →
      ∀ y ∈ ys, ∃ x ∈ l, f x = .ok y := by
  intro l
  induction l with
  | nil =>
    intro ys hok y hy
    cases hok
    cases hy
  | cons x xs ih =>
    intro ys hok y hy
    unfold mapRows at hok
    cases hfx : f x with
    | error e => rw [hfx] at hok; cases hok
    | ok y0 =>
      rw [hfx] at hok
      cases hrest : mapRows f xs with
      | error e => rw [hrest] at hok; cases hok
      | ok ys0 =>
        rw [hrest] at hok
        cases hok
        rcases List.mem_cons.mp hy with hyy | hyy
        · exact ⟨x, List.mem_cons_self _ _, hyy ▸ hfx⟩
        · obtain ⟨x', hx', hfx'⟩ := ih ys0 hrest y hyy
          exact ⟨x', List.mem_cons_of_mem _ hx', hfx'⟩

theorem list_sum_map_div (l : List ℚ) (T : ℚ) :
    (l.map (fun q => q / T)).sum = l.sum / T := by
  induction l with
  | nil => simp
  | cons q l ih => simp [ih, add_div]

theorem prepare_ok_memory {performance_data : List PerfEntry}
    {aggr_json_profile : List AggrEntry} {w m : List (List Cell)}
    (h : prepare_data_for_graph performance_data aggr_json_profile = .ok (w, m)) :
    m = memory_header ::
      (group_readings performance_data).map
        (fun g => [Cell.str g.1, Cell.num (median g.2.memory_readings)]) := by
  unfold prepare_data_for_graph at h
  cases hb : get_proportion_breakdown aggr_json_profile with
  | error e => rw [hb] at h; cases h
  | ok props =>
    rw [hb] at h
    dsimp only at h
    cases hr : mapRows (wallRow props
        (((performance_data.getLast?).map (fun e => e.bazel_commit)).getD ""))
        (group_readings performance_data) with
    | error e => rw [hr] at h; cases h
    | ok rows =>
      rw [hr] at h
      cases h
      rfl

theorem prepare_ok_wall {performance_data : List PerfEntry}
    {aggr_json_profile : List AggrEntry} {w m : List (List Cell)}
    (h : prepare_data_for_graph performance_data aggr_json_profile = .ok (w, m)) :
    ∃ props rows, get_proportion_breakdown aggr_json_profile = .ok props ∧
      mapRows (wallRow props
          (((performance_data.getLast?).map (fun e => e.bazel_commit)).getD ""))
        (group_readings performance_data) = .ok rows ∧
      w = wall_header :: rows := by
  unfold prepare_data_for_graph at h
  cases hb : get_proportion_breakdown aggr_json_profile with
  | error e => rw [hb] at h; cases h
  | ok props =>
    rw [hb] at h
    dsimp only at h
    cases hr : mapRows (wallRow props
        (((performance_data.getLast?).map (fun e => e.bazel_commit)).getD ""))
        (group_readings performance_data) with
    | error e => rw [hr] at h; cases h
    | ok rows =>
      rw [hr] at h
      cases h
      exact ⟨props, rows, rfl, hr, rfl⟩

theorem isPrefixChars_self_append : ∀ (p b : List Char), isPrefixChars p (p ++ b) = true := by
  intro p
  induction p with
  | nil => intro b; rfl
  | cons c cs ih =>
    intro b
    show (if c = c then isPrefixChars cs (cs ++ b) else false) = true
    rw [if_pos rfl]
    exact ih b

theorem containsSub_self_append : ∀ (p b : List Char), containsSub p (p ++ b) = true := by
  intro p b
  cases p with
  | nil =>
    cases b with
    | nil => rfl
    | cons c r => rfl
  | cons c cs =>
    show (isPrefixChars (c :: cs) (c :: (cs ++ b)) || _) = true
    rw [show (c :: (cs ++ b)) = (c :: cs) ++ b from rfl,
        isPrefixChars_self_append (c :: cs) b]
    rfl

theorem containsSub_cons {p s : List Char} (c : Char) (h : containsSub p s = true) :
    containsSub p (c :: s) = true := by
  show (isPrefixChars p (c :: s) || containsSub p s) = true
  rw [h, Bool.or_true]

theorem containsSub_append_left : ∀ (a : List Char) {p s : List Char},
    containsSub p s = true → containsSub p (a ++ s) = true := by
  intro a
  induction a with
  | nil => intro p s h; exact h
  | cons c r ih => intro p s h; exact containsSub_cons c (ih h)

theorem string_data_append (a b : String) : (a ++ b).data = a.data ++ b.data := rfl

/-- Lookup of a run identifier in the phase grouping of
`_get_proportion_breakdown`: the group for `c` is exactly its `(name, dur)`
samples in input order. -/
theorem group_phases_lookupKey (aggr_json_profile : List AggrEntry) (c : String)
    (hne : phasesOf aggr_json_profile c ≠ []) :
    lookupKey c (group_phases aggr_json_profile) = some (phasesOf aggr_json_profile c) := by
  have h := dictFold_lookupKey (fun e => e.bazel_source) []
      (fun e phases => phases ++ [(e.name, e.dur)]) aggr_json_profile c
  have hfil : (aggr_json_profile.filter (fun e => e.bazel_source = c)).isEmpty = false := by
    rw [List.isEmpty_eq_false_iff_exists_mem]
    have : (aggr_json_profile.filter (fun e => e.bazel_source = c)).map
        (fun e => (e.name, e.dur)) ≠ [] := hne
    rcases hx : aggr_json_profile.filter (fun e => e.bazel_source = c) with _ | ⟨x, xs⟩
    · rw [hx] at this; simp at this
    · exact ⟨x, by rw [hx]; exact List.mem_cons_self _ _⟩
  rw [show group_phases aggr_json_profile =
      dictFold (fun e => e.bazel_source) []
        (fun e phases => phases ++ [(e.name, e.dur)]) aggr_json_profile from rfl, h,
    if_neg (by rw [hfil]; exact Bool.false_ne_true)]
  rw [foldl_append_singleton_map]
  rfl

/-- C2: if the aggregate profile contains a run identifier all of whose
phase durations are zero, `_get_proportion_breakdown` raises (the division
by the zero total is reached), rather than silently producing a 0/0
value. -/
theorem c2_zero_total_duration_raises (aggr_json_profile : List AggrEntry) (c : String)
    (hmem : c ∈ aggr_json_profile.map (fun e => e.bazel_source))
    (hzero : ∀ e ∈ aggr_json_profile, e.bazel_source = c → e.dur = 0) :
    ∃ msg, get_proportion_breakdown aggr_json_profile = .error msg := by
  obtain ⟨e0, he0, hkey⟩ := List.mem_map.mp hmem
  have hne : phasesOf aggr_json_profile c ≠ [] := by
    unfold phasesOf
    have : e0 ∈ aggr_json_profile.filter (fun e => e.bazel_source = c) :=
      List.mem_filter.mpr ⟨he0, by simp [hkey]⟩
    intro hcon
    rw [List.map_eq_nil_iff] at hcon
    rw [hcon] at this
    cases this
  have hlook := group_phases_lookupKey aggr_json_profile c hne
  have hmem2 : (c, phasesOf aggr_json_profile c) ∈ group_phases aggr_json_profile :=
    lookupKey_mem hlook
  have hzero2 : ((phasesOf aggr_json_profile c).map (fun p => p.2)).sum = 0 := by
    refine List.sum_eq_zero ?_
    intro x hx
    rcases List.mem_map.mp hx with ⟨p, hp, hpx⟩
    rcases List.mem_map.mp hp with ⟨e, he, hep⟩
    have hef : e ∈ aggr_json_profile ∧ e.bazel_source = c := by
      have := List.mem_filter.mp he
      exact ⟨this.1, by simpa using this.2⟩
    rw [← hpx, ← hep]
    exact hzero e hef.1 hef.2
  exact breakdownGroups_error_of_zero (group_phases aggr_json_profile)
    (c, phasesOf aggr_json_profile c) hmem2 hne hzero2

/-- Witness for C2 at a concrete input: one run with a single zero-duration
phase sample makes the calculator fail. -/
theorem c2_witness :
    ∃ msg, get_proportion_breakdown [⟨"abc123", "Launch Blaze", 0⟩] = .error msg :=
  c2_zero_total_duration_raises [⟨"abc123", "Launch Blaze", 0⟩] "abc123"
    (by simp) (by intro e he _; simp at he; rw [he])

/-- C4: for a run identifier with distinct phase names and positive total
duration `T`, the proportion map produced for it assigns each phase
`dur / T`, and those proportions sum to exactly 1. -/
theorem c4_proportions_sum_to_one (aggr_json_profile : List AggrEntry) (c : String)
    (props : List (String × List (String × ℚ)))
    (hok : get_proportion_breakdown aggr_json_profile = .ok props)
    (hne : phasesOf aggr_json_profile c ≠ [])
    (hnd : ((phasesOf aggr_json_profile c).map (fun p => p.1)).Nodup)
    (hpos : 0 < totalOf aggr_json_profile c) :
    lookupKey c props =
      some ((phasesOf aggr_json_profile c).map
        (fun p => (p.1, p.2 / totalOf aggr_json_profile c))) ∧
    ((phasesOf aggr_json_profile c).map
        (fun p => p.2 / totalOf aggr_json_profile c)).sum = 1 := by
  have hlook := group_phases_lookupKey aggr_json_profile c hne
  obtain ⟨bd, hbd, hpl⟩ :=
    breakdownGroups_ok_lookup (group_phases aggr_json_profile) props hok c
      (phasesOf aggr_json_profile c) hlook
  have hT : ((phasesOf aggr_json_profile c).map (fun p => p.2)).sum ≠ 0 :=
    ne_of_gt hpos
  have hbd2 : bd = (phasesOf aggr_json_profile c).map
      (fun p => (p.1, p.2 / totalOf aggr_json_profile c)) := by
    unfold proportionOfGroup at hbd
    rw [if_neg hne, if_neg hT] at hbd
    have := foldl_updateKey_eq_map (fun p => p.1) 0
      (fun p _ => p.2 / ((phasesOf aggr_json_profile c).map (fun p => p.2)).sum)
      (phasesOf aggr_json_profile c) []
      (by simpa using hnd) (by intro e _; rfl)
    rw [show dictFold (fun p => p.1) 0
        (fun p _ => p.2 / ((phasesOf aggr_json_profile c).map (fun p => p.2)).sum)
        (phasesOf aggr_json_profile c) =
      (phasesOf aggr_json_profile c).foldl
        (fun m e => updateKey m e.1 0
          (fun _ => e.2 / ((phasesOf aggr_json_profile c).map (fun p => p.2)).sum)) []
      from rfl, this] at hbd
    simp only [List.nil_append, Except.ok.injEq] at hbd
    exact hbd.symm
  constructor
  · rw [hpl, hbd2]
  · have hmm : (phasesOf aggr_json_profile c).map
        (fun p => p.2 / totalOf aggr_json_profile c) =
        ((phasesOf aggr_json_profile c).map (fun p => p.2)).map
          (fun q => q / totalOf aggr_json_profile c) := by
      rw [List.map_map]
      rfl
    rw [hmm, list_sum_map_div]
    exact div_self hT

/-- Witness for C4 at a concrete input: run `A` with phases of durations 1
and 3 gets proportions 1/4 and 3/4, which sum to 1. -/
theorem c4_witness :
    lookupKey "A" [("A", [("Launch Blaze", (1 : ℚ)/4), ("Initialize command", 3/4)])] =
      some ((phasesOf [⟨"A", "Launch Blaze", 1⟩, ⟨"A", "Initialize command", 3⟩] "A").map
        (fun p => (p.1,
          p.2 / totalOf [⟨"A", "Launch Blaze", 1⟩, ⟨"A", "Initialize command", 3⟩] "A"))) ∧
    ((phasesOf [⟨"A", "Launch Blaze", 1⟩, ⟨"A", "Initialize command", 3⟩] "A").map
      (fun p =>
        p.2 / totalOf [⟨"A", "Launch Blaze", 1⟩, ⟨"A", "Initialize command", 3⟩] "A")).sum
      = 1 :=
  c4_proportions_sum_to_one
    [⟨"A", "Launch Blaze", 1⟩, ⟨"A", "Initialize command", 3⟩] "A"
    [("A", [("Launch Blaze", (1 : ℚ)/4), ("Initialize command", 3/4)])]
    (by simp [get_proportion_breakdown, group_phases, dictFold, updateKey, lookupKey,
        breakdownGroups, proportionOfGroup]
        norm_num)
    (by simp [phasesOf])
    (by simp [phasesOf])
    (by norm_num [totalOf, phasesOf])

/-- C3: the Reading Aggregator (first loop of `_prepare_data_for_graph`)
emits one entry per distinct run identifier, in first-seen input order, with
no reordering and no further deduplication. -/
theorem c3_aggregator_first_seen_order (performance_data : List PerfEntry) :
    (group_readings performance_data).map (fun p => p.1) =
      newKeys [] (performance_data.map (fun e => e.bazel_commit)) ∧
    ((group_readings performance_data).map (fun p => p.1)).Nodup ∧
    (∀ c, c ∈ (group_readings performance_data).map (fun p => p.1) ↔
      c ∈ performance_data.map (fun e => e.bazel_commit)) := by
  have hkeys := dictFold_keys (fun e => e.bazel_commit) (⟨[], []⟩ : Readings)
      (fun e r => ⟨r.wall_readings ++ [e.wall], r.memory_readings ++ [e.memory]⟩)
      performance_data
  refine ⟨hkeys, ?_, ?_⟩
  · rw [show group_readings performance_data =
        dictFold (fun e => e.bazel_commit) (⟨[], []⟩ : Readings)
          (fun e r => ⟨r.wall_readings ++ [e.wall], r.memory_readings ++ [e.memory]⟩)
          performance_data from rfl, hkeys]
    exact newKeys_nodup _ _
  · intro c
    rw [show group_readings performance_data =
        dictFold (fun e => e.bazel_commit) (⟨[], []⟩ : Readings)
          (fun e r => ⟨r.wall_readings ++ [e.wall], r.memory_readings ++ [e.memory]⟩)
          performance_data from rfl, hkeys, newKeys_mem]
    simp

/-- Helper: the cell produced by `_fit_data_to_phase_proportion` for one
phase, in `Option` form. -/
theorem fit_cell (reading : ℚ) (bd : List (String × ℚ)) (phase : String) :
    (match lookupKey phase bd with
     | none => (0 : ℚ)
     | some p => reading * p) =
      (Option.map (fun p => reading * p) (lookupKey phase bd)).getD 0 := by
  cases lookupKey phase bd <;> rfl

/-- C6: expanding a breakdown against the fixed 8-phase vocabulary gives,
position by position in vocabulary order, `0` for an absent phase and
`reading * proportion` for a present one. -/
theorem c6_fit_vocabulary (reading : ℚ) (proportion_breakdown : List (String × ℚ)) :
    (fit_data_to_phase_proportion reading proportion_breakdown).length =
      EVENTS_ORDER.length ∧
    ∀ i, i < EVENTS_ORDER.length →
      (fit_data_to_phase_proportion reading proportion_breakdown).getD i 0 =
        (Option.map (fun p => reading * p)
          (lookupKey (EVENTS_ORDER.getD i "") proportion_breakdown)).getD 0 := by
  constructor
  · simp [fit_data_to_phase_proportion]
  · intro i hi
    rw [show EVENTS_ORDER.length = 8 from rfl] at hi
    interval_cases i <;>
      simp [fit_data_to_phase_proportion, EVENTS_ORDER, fit_cell]

/-- Witness for C6 at a concrete input: vocabulary position 2
("Load packages") present with proportion 1/2 and reading 2. -/
theorem c6_witness :
    (fit_data_to_phase_proportion 2 [("Load packages", (1 : ℚ)/2)]).getD 2 0 =
      (Option.map (fun p => (2 : ℚ) * p)
        (lookupKey (EVENTS_ORDER.getD 2 "") [("Load packages", (1 : ℚ)/2)])).getD 0 :=
  (c6_fit_vocabulary 2 [("Load packages", (1 : ℚ)/2)]).2 2 (by decide)

/-- C5: the aggregator's median is the standard statistical median (sorted
middle element, or mean of the two middle elements), `median [1,3,5] = 3`,
`median [1,2,3,4] = 2.5`, and each memory-table data row is
`[run_id, median_memory]`. -/
theorem c5_median_standard :
    (∀ xs : List ℚ, ∃ s, List.Perm xs s ∧ List.Sorted (· ≤ ·) s ∧
        median xs = sorted_median_rule s) ∧
    median [1, 3, 5] = 3 ∧
    median [1, 2, 3, 4] = 5 / 2 ∧
    (∀ (performance_data : List PerfEntry) (aggr_json_profile : List AggrEntry)
        (w m : List (List Cell)),
      prepare_data_for_graph performance_data aggr_json_profile = .ok (w, m) →
      m = memory_header ::
        (group_readings performance_data).map
          (fun g => [Cell.str g.1, Cell.num (median g.2.memory_readings)])) := by
  refine ⟨?_, ?_, ?_, ?_⟩
  · intro xs
    exact ⟨List.insertionSort (· ≤ ·) xs, (List.perm_insertionSort _ _).symm,
      List.sorted_insertionSort _ _, rfl⟩
  · norm_num [median, List.insertionSort, List.orderedInsert]
  · norm_num [median, List.insertionSort, List.orderedInsert]
  · intro performance_data aggr_json_profile w m h
    exact prepare_ok_memory h

/-- Witness for C5 at a concrete input: a single run with one memory
reading produces the memory row `[run, median]`. -/
theorem c5_witness :
    ([[Cell.str "Bazel Commit", Cell.str "Memory (MB)"], [Cell.str "A", Cell.num 2]] :
        List (List Cell)) =
      memory_header ::
        (group_readings [⟨"A", 1, 2⟩]).map
          (fun g => [Cell.str g.1, Cell.num (median g.2.memory_readings)]) :=
  c5_median_standard.2.2.2 [⟨"A", 1, 2⟩] [⟨"A", "Launch Blaze", 1⟩]
    [[Cell.str "Bazel Commit"] ++ EVENTS_ORDER.map Cell.str,
     [Cell.str "A", Cell.num 1, Cell.num 0, Cell.num 0, Cell.num 0, Cell.num 0,
      Cell.num 0, Cell.num 0, Cell.num 0]]
    [[Cell.str "Bazel Commit", Cell.str "Memory (MB)"], [Cell.str "A", Cell.num 2]]
    (by simp [prepare_data_for_graph, get_proportion_breakdown, group_phases,
        breakdownGroups, proportionOfGroup, dictFold, updateKey, lookupKey, group_readings,
        mapRows, wallRow, fit_data_to_phase_proportion, EVENTS_ORDER, median,
        List.insertionSort, List.orderedInsert, wall_header, memory_header] <;>
      norm_num <;>
      simp [prepare_data_for_graph, get_proportion_breakdown, group_phases,
        breakdownGroups, proportionOfGroup, dictFold, updateKey, lookupKey, group_readings,
        mapRows, wallRow, fit_data_to_phase_proportion, EVENTS_ORDER, median,
        List.insertionSort, List.orderedInsert, wall_header, memory_header] <;>
      norm_num)

/-- C10: the memory table depends only on the performance data: two
successful runs of `_prepare_data_for_graph` on the same performance data
but different aggregate profiles produce identical memory tables. -/
theorem c10_memory_table_independent_of_profile
    (performance_data : List PerfEntry) (a1 a2 : List AggrEntry)
    (w1 m1 w2 m2 : List (List Cell))
    (h1 : prepare_data_for_graph performance_data a1 = .ok (w1, m1))
    (h2 : prepare_data_for_graph performance_data a2 = .ok (w2, m2)) :
    m1 = m2 :=
  (prepare_ok_memory h1).trans (prepare_ok_memory h2).symm

/-- Witness for C10 at concrete inputs: two different aggregate profiles,
same performance data, equal memory tables. -/
theorem c10_witness :
    ([[Cell.str "Bazel Commit", Cell.str "Memory (MB)"], [Cell.str "A", Cell.num 5]] :
        List (List Cell)) =
      [[Cell.str "Bazel Commit", Cell.str "Memory (MB)"], [Cell.str "A", Cell.num (10/2)]] :=
  c10_memory_table_independent_of_profile [⟨"A", 10, 5⟩]
    [⟨"A", "Launch Blaze", 1⟩]
    [⟨"A", "Launch Blaze", 3⟩, ⟨"A", "Build artifacts", 1⟩]
    [[Cell.str "Bazel Commit"] ++ EVENTS_ORDER.map Cell.str,
     [Cell.str "A", Cell.num 10, Cell.num 0, Cell.num 0, Cell.num 0, Cell.num 0,
      Cell.num 0, Cell.num 0, Cell.num 0]]
    [[Cell.str "Bazel Commit", Cell.str "Memory (MB)"], [Cell.str "A", Cell.num 5]]
    [[Cell.str "Bazel Commit"] ++ EVENTS_ORDER.map Cell.str,
     [Cell.str "A", Cell.num (15/2), Cell.num 0, Cell.num 0, Cell.num 0, Cell.num 0,
      Cell.num 0, Cell.num (5/2), Cell.num 0]]
    [[Cell.str "Bazel Commit", Cell.str "Memory (MB)"], [Cell.str "A", Cell.num (10/2)]]
    (by simp [prepare_data_for_graph, get_proportion_breakdown, group_phases,
        breakdownGroups, proportionOfGroup, dictFold, updateKey, lookupKey, group_readings,
        mapRows, wallRow, fit_data_to_phase_proportion, EVENTS_ORDER, median,
        List.insertionSort, List.orderedInsert, wall_header, memory_header] <;>
      norm_num <;>
      simp [prepare_data_for_graph, get_proportion_breakdown, group_phases,
        breakdownGroups, proportionOfGroup, dictFold, updateKey, lookupKey, group_readings,
        mapRows, wallRow, fit_data_to_phase_proportion, EVENTS_ORDER, median,
        List.insertionSort, List.orderedInsert, wall_header, memory_header] <;>
      norm_num)
    (by simp [prepare_data_for_graph, get_proportion_breakdown, group_phases,
        breakdownGroups, proportionOfGroup, dictFold, updateKey, lookupKey, group_readings,
        mapRows, wallRow, fit_data_to_phase_proportion, EVENTS_ORDER, median,
        List.insertionSort, List.orderedInsert, wall_header, memory_header] <;>
      norm_num <;>
      simp [prepare_data_for_graph, get_proportion_breakdown, group_phases,
        breakdownGroups, proportionOfGroup, dictFold, updateKey, lookupKey, group_readings,
        mapRows, wallRow, fit_data_to_phase_proportion, EVENTS_ORDER, median,
        List.insertionSort, List.orderedInsert, wall_header, memory_header] <;>
      norm_num)

/-- C8: `_generate_report_for_date` writes nothing when a fetch or
data-integrity error is raised, and on success writes exactly one file whose
content is the fully assembled document. -/
theorem c8_write_only_after_assembly (project date : String)
    (metadata_platforms : Except String (List PlatformFetch)) :
    (∀ e, (generate_report_for_date project date metadata_platforms).2 = some e →
      (generate_report_for_date project date metadata_platforms).1 = []) ∧
    (∀ platforms comps, metadata_platforms = .ok platforms →
      graph_components platforms = .ok comps →
      generate_report_for_date project date metadata_platforms =
        ([(report_path project date,
           full_report project date (String.intercalate "\n" comps))], none)) := by
  constructor
  · intro e he
    cases metadata_platforms with
    | error e0 => rfl
    | ok platforms =>
      cases hg : graph_components platforms with
      | error e0 => simp [generate_report_for_date, hg]
      | ok comps => simp [generate_report_for_date, hg] at he
  · intro platforms comps hmd hg
    subst hmd
    simp [generate_report_for_date, hg]

/-- Witness for C8 at concrete inputs: a failed metadata fetch writes no
file; an empty platform list writes the one assembled document. -/
theorem c8_witness :
    (generate_report_for_date "bazel" "2019-01-01" (Except.error "DataFetchError")).1 = [] ∧
    generate_report_for_date "bazel" "2019-01-01" (Except.ok []) =
      ([(report_path "bazel" "2019-01-01",
         full_report "bazel" "2019-01-01" (String.intercalate "\n" []))], none) :=
  ⟨(c8_write_only_after_assembly "bazel" "2019-01-01" (Except.error "DataFetchError")).1
      "DataFetchError" rfl,
   (c8_write_only_after_assembly "bazel" "2019-01-01" (Except.ok [])).2 [] [] rfl rfl⟩

/-- C9: every wall-table data row has exactly 9 cells (run identifier plus
one value per vocabulary phase); a phase name outside the vocabulary is
silently dropped, so the numeric cells of a row can sum to strictly less
than the row's median wall reading. -/
theorem c9_wall_row_shape :
    (∀ (performance_data : List PerfEntry) (aggr_json_profile : List AggrEntry)
        (w m : List (List Cell)) (row : List Cell),
      prepare_data_for_graph performance_data aggr_json_profile = .ok (w, m) →
      row ∈ w.tail → row.length = 9) ∧
    prepare_data_for_graph [⟨"abc", 20, 7⟩] [⟨"abc", "Some other phase", 5⟩] =
      .ok ([wall_header,
            [Cell.str "abc", Cell.num 0, Cell.num 0, Cell.num 0, Cell.num 0, Cell.num 0,
             Cell.num 0, Cell.num 0, Cell.num 0]],
           [memory_header, [Cell.str "abc", Cell.num 7]]) ∧
    rowNumSum [Cell.str "abc", Cell.num 0, Cell.num 0, Cell.num 0, Cell.num 0, Cell.num 0,
      Cell.num 0, Cell.num 0, Cell.num 0] < median [20] := by
  refine ⟨?_, ?_, ?_⟩
  · intro performance_data aggr_json_profile w m row hok hrow
    obtain ⟨props, rows, hb, hr, hw⟩ := prepare_ok_wall hok
    rw [hw] at hrow
    have hrow2 : row ∈ rows := by simpa using hrow
    obtain ⟨g, hg, hfg⟩ := mapRows_ok_mem _ _ _ hr row hrow2
    unfold wallRow at hfg
    cases hl : lookupKey
        (((performance_data.getLast?).map (fun e => e.bazel_commit)).getD "") props with
    | none => rw [hl] at hfg; cases hfg
    | some bd =>
      rw [hl, Except.ok.injEq] at hfg
      subst hfg
      simp [fit_data_to_phase_proportion, EVENTS_ORDER]
  · simp [prepare_data_for_graph, get_proportion_breakdown, group_phases,
      breakdownGroups, proportionOfGroup, dictFold, updateKey, lookupKey, group_readings,
      mapRows, wallRow, fit_data_to_phase_proportion, EVENTS_ORDER, median,
      List.insertionSort, List.orderedInsert, wall_header, memory_header] <;>
    norm_num <;>
    simp [prepare_data_for_graph, get_proportion_breakdown, group_phases,
      breakdownGroups, proportionOfGroup, dictFold, updateKey, lookupKey, group_readings,
      mapRows, wallRow, fit_data_to_phase_proportion, EVENTS_ORDER, median,
      List.insertionSort, List.orderedInsert, wall_header, memory_header] <;>
    norm_num
  · norm_num [rowNumSum, median, List.insertionSort, List.orderedInsert]

/-- Witness for C9 at a concrete input: the one data row of the concrete
wall table has 9 cells. -/
theorem c9_witness :
    ([Cell.str "abc", Cell.num 0, Cell.num 0, Cell.num 0, Cell.num 0, Cell.num 0,
      Cell.num 0, Cell.num 0, Cell.num 0] : List Cell).length = 9 :=
  c9_wall_row_shape.1 [⟨"abc", 20, 7⟩] [⟨"abc", "Some other phase", 5⟩]
    [wall_header,
     [Cell.str "abc", Cell.num 0, Cell.num 0, Cell.num 0, Cell.num 0, Cell.num 0,
      Cell.num 0, Cell.num 0, Cell.num 0]]
    [memory_header, [Cell.str "abc", Cell.num 7]]
    [Cell.str "abc", Cell.num 0, Cell.num 0, Cell.num 0, Cell.num 0, Cell.num 0,
     Cell.num 0, Cell.num 0, Cell.num 0]
    c9_wall_row_shape.2.1 (by simp)

set_option maxRecDepth 4096 in
/-- C7: with zero platforms the report is still generated: no chart
components are built, exactly one document is written, the document embeds
the project name and the date, and none of the template segments around
them contains a chart `<div>` or chart-drawing script marker. -/
theorem c7_zero_platforms (project date : String) :
    graph_components [] = .ok [] ∧
    generate_report_for_date project date (.ok []) =
      ([(report_path project date, full_report project date "")], none) ∧
    containsSub project.data (full_report project date "").data = true ∧
    containsSub date.data (full_report project date "").data = true ∧
    (chart_markers.all fun mk =>
      [fr1, fr2, fr3, fr4].all fun seg => !(containsSub mk.data seg.data)) = true := by
  have hdoc : (full_report project date "").data =
      fr1.data ++ (project.data ++ (fr2.data ++ (date.data ++ (fr3.data ++ fr4.data)))) := by
    show (fr1 ++ project ++ fr2 ++ date ++ fr3 ++ "" ++ fr4).data = _
    simp [string_data_append, List.append_assoc,
      show ("" : String).data = ([] : List Char) from rfl]
  refine ⟨rfl, rfl, ?_, ?_, by decide⟩
  · rw [hdoc]
    exact containsSub_append_left _ (containsSub_self_append _ _)
  · rw [hdoc]
    exact containsSub_append_left _ (containsSub_append_left _ (containsSub_append_left _
      (containsSub_self_append _ _)))

/-- C1 (the stale-loop-variable defect of `_prepare_data_for_graph`): on
runs `A` (walls 10 and 12, phases split 1/2-1/2) and `B` (wall 20, one
phase), every wall row uses run `B`'s proportions — `B` is the last-seen
value of the reused loop variable — so the row for `A` is
`[A, 11, 0, ...]`, not the `[A, 5.5, 5.5, 0, ...]` the specification
requires. -/
theorem c1_wall_row_uses_stale_commit :
    prepare_data_for_graph
      [⟨"A", 10, 100⟩, ⟨"A", 12, 100⟩, ⟨"B", 20, 80⟩]
      [⟨"A", "Launch Blaze", 1⟩, ⟨"A", "Initialize command", 1⟩, ⟨"B", "Launch Blaze", 5⟩]
    = .ok
      ([wall_header,
        [Cell.str "A", Cell.num 11, Cell.num 0, Cell.num 0, Cell.num 0, Cell.num 0,
         Cell.num 0, Cell.num 0, Cell.num 0],
        [Cell.str "B", Cell.num 20, Cell.num 0, Cell.num 0, Cell.num 0, Cell.num 0,
         Cell.num 0, Cell.num 0, Cell.num 0]],
       [memory_header, [Cell.str "A", Cell.num 100], [Cell.str "B", Cell.num 80]]) ∧
    ([Cell.str "A", Cell.num 11, Cell.num 0, Cell.num 0, Cell.num 0, Cell.num 0,
      Cell.num 0, Cell.num 0, Cell.num 0] : List Cell) ≠
    [Cell.str "A", Cell.num (11/2), Cell.num (11/2), Cell.num 0, Cell.num 0, Cell.num 0,
     Cell.num 0, Cell.num 0, Cell.num 0] := by
  constructor
  · simp [prepare_data_for_graph, get_proportion_breakdown, group_phases,
      breakdownGroups, proportionOfGroup, dictFold, updateKey, lookupKey, group_readings,
      mapRows, wallRow, fit_data_to_phase_proportion, EVENTS_ORDER, median,
      List.insertionSort, List.orderedInsert, wall_header, memory_header] <;>
    norm_num <;>
    simp [prepare_data_for_graph, get_proportion_breakdown, group_phases,
      breakdownGroups, proportionOfGroup, dictFold, updateKey, lookupKey, group_readings,
      mapRows, wallRow, fit_data_to_phase_proportion, EVENTS_ORDER, median,
      List.insertionSort, List.orderedInsert, wall_header, memory_header] <;>
    norm_num
  · intro h
    have h4 : (11 : ℚ) = 11 / 2 := Cell.num.inj (List.cons.inj (List.cons.inj h).2).1
    norm_num at h4

end BazelBench
